import Mathlib

/-!
Shallow embedding of `mdns.go` (command mdns, function `query`): the
query-dispatch / response-demultiplexing / record-assembly engine.

The DNS binary codec (`dns.Msg.Pack` / `Unpack`) and the UDP transport are
external collaborators of the program; inbound traffic is therefore modelled
as a stream of already-decoded events (`Event`): a successfully decoded
message, a datagram that failed to decode (with its sender's address), a
read failure with `net.ErrClosed`, or another read failure.  Resource
records are modelled by the fields the program inspects (`dns.PTR`:
`Hdr.Name` and `Ptr`; `dns.SRV`: `Target` and `Port`; `dns.A`/`dns.AAAA`:
the rendered textual address; `dns.TXT`: nothing).  Side effects of the
loop (sending a follow-up query, printing an output line, logging a bad
response) are collected in a list of `Out` values in the order they happen.
Failure of `Pack`/`WriteTo` for a follow-up query is modelled by an oracle
`sendErr : String → Option String` giving, per queried name, the error the
send for that name fails with (`none` = success); this is faithful because
the deduplicator lets each name be sent at most once per run.
-/

namespace Mdns

/-- Resource records, restricted to the fields `query` reads.  `other`
stands for any record type without a case in the Go type switches. -/
inductive RR where
  | ptr (subject target : String)
  | srv (target : String) (port : Nat)
  | a (addr : String)
  | aaaa (addr : String)
  | txt
  | other
deriving DecidableEq, Repr

/-- A decoded DNS message: transaction id, answer section, extra section. -/
structure Msg where
  id : Nat
  answer : List RR
  extra : List RR
deriving DecidableEq, Repr

/-- One iteration's worth of input to the read loop (`conn.ReadFrom` plus
`msg.Unpack`): the connection was closed, the read failed otherwise, the
datagram failed to decode, or a message was decoded. -/
inductive Event where
  | closed
  | readErr (e : String)
  | badMsg (sender : String)
  | goodMsg (m : Msg)
deriving DecidableEq, Repr

/-- Observable side effects of the loop, in order of occurrence. -/
inductive Out where
  | query (name : String)
  | line (s : String)
  | logBad (sender : String)
deriving DecidableEq, Repr

/-- Outcome of running the loop on a finite event list: `ok` models
`return nil`, `fail` models `return err`, `running` means the event list
was exhausted with the loop still blocked on the next read. -/
inductive LoopResult where
  | ok
  | fail (e : String)
  | running
deriving DecidableEq, Repr

/-- Go `strings.TrimSuffix s suffix`: drop `suffix` from the end of `s`
when present, otherwise return `s` unchanged. -/
def trimSuffix (s suffix : String) : String :=
  if suffix.data.isSuffixOf s.data then
    ⟨s.data.take (s.data.length - suffix.data.length)⟩
  else s

/-- Go `strings.Trim s cutset` for a one-character cutset: remove every
leading and trailing occurrence of `c`. -/
def trimChar (c : Char) (s : String) : String :=
  ⟨((s.data.dropWhile (· == c)).reverse.dropWhile (· == c)).reverse⟩

/-- Go `strings.Split s "."` on the character list of `s`: the segments
between the dots, including empty segments; `n` dots give `n + 1`
segments, and the empty string gives one empty segment. -/
def splitDots : List Char → List (List Char)
  | [] => [[]]
  | c :: rest =>
    if c = '.' then [] :: splitDots rest
    else
      match splitDots rest with
      | [] => [[c]]
      | p :: ps => (c :: p) :: ps

/-- Go `strings.Split s "."` as an operation on strings. -/
def splitOnDot (s : String) : List String :=
  (splitDots s.data).map (fun cs => String.mk cs)

/-- Decimal digits of a natural number, fuel-indexed so the recursion is
structural; with fuel `n + 1` the fuel never runs out. -/
def natDigitsAux : Nat → Nat → List Char
  | 0, _ => []
  | fuel + 1, n =>
    if n < 10 then [Nat.digitChar n]
    else natDigitsAux fuel (n / 10) ++ [Nat.digitChar (n % 10)]

/-- Go `fmt.Sprintf "%d" n` for an unsigned value: decimal rendering. -/
def natToString (n : Nat) : String :=
  ⟨natDigitsAux (n + 1) n⟩

/-- Accumulator of the record assembler: the local variables
`name, host, service, proto, addrs` of `query` (lines 118-124). -/
structure SvcAcc where
  name : String
  host : String
  service : String
  proto : String
  addrs : List String
deriving DecidableEq, Repr

/-- Zero values of the assembler's local variables. -/
def initAcc : SvcAcc := ⟨"", "", "", "", []⟩

/-- One iteration of the record-assembly switch (lines 126-143): PTR sets
the instance name and, when the subject splits into three dot-separated
components ending in `local`, the service and protocol labels; SRV sets
`host`; A/AAAA append an address; TXT and unknown records do nothing. -/
def assembleStep (acc : SvcAcc) : RR → SvcAcc
  | .ptr subject target =>
    let name := trimSuffix target ("." ++ subject)
    let svcParts := splitOnDot (trimChar '.' subject)
    if svcParts.length = 3 ∧ svcParts.getD 2 "" = "local" then
      { acc with name := name,
                 service := trimChar '_' (svcParts.getD 0 ""),
                 proto := trimChar '_' (svcParts.getD 1 "") }
    else
      { acc with name := name }
  | .srv target port =>
    { acc with host := trimSuffix target "." ++ ":" ++ natToString port }
  | .a addr => { acc with addrs := acc.addrs ++ [addr] }
  | .aaaa addr => { acc with addrs := acc.addrs ++ [addr] }
  | .txt => acc
  | .other => acc

/-- Run the assembler over the combined record list
(`append(msg.Answer, msg.Extra...)`). -/
def assemble (records : List RR) : SvcAcc :=
  records.foldl assembleStep initAcc

/-- The printed line for one non-enumeration response:
`fmt.Printf("%s\t%s\t%s\t%s\n", proto, service, host, name)`. -/
def assembleLine (m : Msg) : String :=
  let acc := assemble (m.answer ++ m.extra)
  acc.proto ++ "\t" ++ acc.service ++ "\t" ++ acc.host ++ "\t" ++ acc.name ++ "\n"

/-- Result of handling one enumeration response: the updated deduplicator
set, the follow-up queries successfully sent (in order), and the error the
handling aborted with, if any. -/
structure EnumRes where
  services : List String
  outs : List Out
  err : Option String
deriving DecidableEq, Repr

/-- The enumeration branch (lines 86-116): for each PTR answer, skip
targets already in `services`; otherwise insert the target and then
build+send a follow-up query for it, aborting the run if that send fails.
The insert happens before the fallible send, exactly as in the source. -/
def handleEnum (sendErr : String → Option String) :
    List String → List RR → EnumRes
  | services, [] => ⟨services, [], none⟩
  | services, .ptr _ target :: rest =>
    if target ∈ services then
      handleEnum sendErr services rest
    else
      let services' := services ++ [target]
      match sendErr target with
      | some e => ⟨services', [], some e⟩
      | none =>
        let r := handleEnum sendErr services' rest
        ⟨r.services, .query target :: r.outs, r.err⟩
  | services, _ :: rest => handleEnum sendErr services rest

/-- Result of running the read loop: effects in order, final deduplicator
set, and how the loop ended. -/
structure LoopRes where
  outs : List Out
  services : List String
  result : LoopResult
deriving DecidableEq, Repr

/-- The read loop of `query` (lines 71-145).  `p` is `servicesQueryID`.
`net.ErrClosed` ends the run successfully; any other read error aborts it;
a datagram that fails to decode is logged with its sender and skipped; a
message with id `p` drives the enumeration branch; any other message is
assembled into exactly one printed line. -/
def queryLoop (p : Nat) (sendErr : String → Option String) :
    List String → List Event → LoopRes
  | services, [] => ⟨[], services, .running⟩
  | services, .closed :: _ => ⟨[], services, .ok⟩
  | services, .readErr e :: _ => ⟨[], services, .fail e⟩
  | services, .badMsg sender :: rest =>
    let r := queryLoop p sendErr services rest
    ⟨.logBad sender :: r.outs, r.services, r.result⟩
  | services, .goodMsg m :: rest =>
    if m.id = p then
      let er := handleEnum sendErr services m.answer
      match er.err with
      | some e => ⟨er.outs, er.services, .fail e⟩
      | none =>
        let r := queryLoop p sendErr er.services rest
        ⟨er.outs ++ r.outs, r.services, r.result⟩
    else
      let r := queryLoop p sendErr services rest
      ⟨.line (assembleLine m) :: r.outs, r.services, r.result⟩

/-- The printed lines among a list of effects, in order. -/
def outputLines : List Out → List String
  | [] => []
  | .line s :: rest => s :: outputLines rest
  | _ :: rest => outputLines rest

/-- How many follow-up queries for name `t` a list of effects contains. -/
def countQueries (t : String) : List Out → Nat
  | [] => 0
  | .query u :: rest => (if u = t then 1 else 0) + countQueries t rest
  | _ :: rest => countQueries t rest

/-- Targets of the PTR records in a record list, in order. -/
def ptrTargets : List RR → List String
  | [] => []
  | .ptr _ target :: rest => target :: ptrTargets rest
  | _ :: rest => ptrTargets rest

/-- All PTR targets of enumeration responses the loop reaches, mirroring
the loop's traversal (it stops at a terminating read result). -/
def enumTargets (p : Nat) : List Event → List String
  | [] => []
  | .closed :: _ => []
  | .readErr _ :: _ => []
  | .badMsg _ :: rest => enumTargets p rest
  | .goodMsg m :: rest =>
    (if m.id = p then ptrTargets m.answer else []) ++ enumTargets p rest

/-- The non-enumeration messages the loop reaches, in receipt order. -/
def nonEnumMsgs (p : Nat) : List Event → List Msg
  | [] => []
  | .closed :: _ => []
  | .readErr _ :: _ => []
  | .badMsg _ :: rest => nonEnumMsgs p rest
  | .goodMsg m :: rest =>
    if m.id = p then nonEnumMsgs p rest else m :: nonEnumMsgs p rest

/-- Textual addresses of the A and AAAA records of a record list, in order. -/
def addrTexts : List RR → List String
  | [] => []
  | .a addr :: rest => addr :: addrTexts rest
  | .aaaa addr :: rest => addr :: addrTexts rest
  | _ :: rest => addrTexts rest

/-- The last PTR record's (subject, target), if any. -/
def lastPtr? : List RR → Option (String × String)
  | [] => none
  | .ptr s t :: rest => some ((lastPtr? rest).getD (s, t))
  | _ :: rest => lastPtr? rest

/-- The last SRV record's (target, port), if any. -/
def lastSrv? : List RR → Option (String × Nat)
  | [] => none
  | .srv t port :: rest => some ((lastSrv? rest).getD (t, port))
  | _ :: rest => lastSrv? rest

/-- The two leading components of the subject of the last PTR record whose
subject, stripped of leading/trailing dots, splits on dots into exactly
three components the last of which is `local`. -/
def lastConfPtr? : List RR → Option (String × String)
  | [] => none
  | .ptr s _ :: rest =>
    (match lastConfPtr? rest with
     | some q => some q
     | none =>
       match splitOnDot (trimChar '.' s) with
       | [x, y, z] => if z = "local" then some (x, y) else none
       | _ => none)
  | _ :: rest => lastConfPtr? rest

/-- Send oracle that fails with error `e` exactly on the name `bad` and
succeeds on every other name. -/
def failOn (bad e : String) : String → Option String :=
  fun u => if u = bad then some e else none

/-! Helper lemmas about the string primitives. -/

theorem trimSuffix_append (a b : String) : trimSuffix (a ++ b) b = a := by
  unfold trimSuffix
  rw [String.data_append]
  rw [if_pos ((List.isSuffixOf_iff_suffix).mpr (List.suffix_append _ _))]
  have hlen : (a.data ++ b.data).length - b.data.length = a.data.length := by
    simp
  rw [hlen, List.take_left]

theorem string_append_assoc (a b c : String) : a ++ b ++ c = a ++ (b ++ c) := by
  apply String.ext
  simp [String.data_append, List.append_assoc]

theorem three_local_iff (l : List String) :
    (l.length = 3 ∧ l.getD 2 "" = "local") ↔ ∃ x y, l = [x, y, "local"] := by
  constructor
  · rintro ⟨hlen, hget⟩
    rcases l with _ | ⟨x, _ | ⟨y, _ | ⟨z, _ | ⟨w, l⟩⟩⟩⟩
    · simp at hlen
    · simp at hlen
    · simp at hlen
    · refine ⟨x, y, ?_⟩
      simp only [List.getD_cons_succ, List.getD_cons_zero] at hget
      simp [hget]
    · simp at hlen
  · rintro ⟨x, y, rfl⟩
    exact ⟨rfl, rfl⟩

/-! Per-record behaviour of the assembler step. -/

theorem assembleStep_ptr_name (acc : SvcAcc) (s t : String) :
    (assembleStep acc (.ptr s t)).name = trimSuffix t ("." ++ s) := by
  simp only [assembleStep]
  split <;> rfl

theorem assembleStep_ptr_host (acc : SvcAcc) (s t : String) :
    (assembleStep acc (.ptr s t)).host = acc.host := by
  simp only [assembleStep]
  split <;> rfl

theorem assembleStep_ptr_addrs (acc : SvcAcc) (s t : String) :
    (assembleStep acc (.ptr s t)).addrs = acc.addrs := by
  simp only [assembleStep]
  split <;> rfl

theorem assembleStep_ptr_labels (acc : SvcAcc) (s t : String) :
    ((assembleStep acc (.ptr s t)).service, (assembleStep acc (.ptr s t)).proto)
      = match splitOnDot (trimChar '.' s) with
        | [x, y, z] =>
          if z = "local" then (trimChar '_' x, trimChar '_' y)
          else (acc.service, acc.proto)
        | _ => (acc.service, acc.proto) := by
  simp only [assembleStep]
  rcases h : splitOnDot (trimChar '.' s) with _ | ⟨x, _ | ⟨y, _ | ⟨z, _ | ⟨w, l⟩⟩⟩⟩ <;>
    simp only [h]
  · rw [if_neg (by rintro ⟨hlen, -⟩; simp at hlen)]
  · rw [if_neg (by rintro ⟨hlen, -⟩; simp at hlen)]
  · rw [if_neg (by rintro ⟨hlen, -⟩; simp at hlen)]
  · by_cases hz : z = "local"
    · rw [if_pos ⟨rfl, by simp [List.getD_cons_succ, List.getD_cons_zero, hz]⟩, if_pos hz]
      simp [List.getD_cons_succ, List.getD_cons_zero]
    · rw [if_neg ?_, if_neg hz]
      rintro ⟨-, hg⟩
      simp only [List.getD_cons_succ, List.getD_cons_zero] at hg
      exact hz hg
  · rw [if_neg (by rintro ⟨hlen, -⟩; simp at hlen)]

/-! Accumulated behaviour of the assembler over a whole record list. -/

theorem foldl_addrs (rs : List RR) (acc : SvcAcc) :
    (rs.foldl assembleStep acc).addrs = acc.addrs ++ addrTexts rs := by
  induction rs generalizing acc with
  | nil => simp [addrTexts]
  | cons r rest ih =>
    cases r with
    | ptr s t => simp [addrTexts, ih, assembleStep_ptr_addrs]
    | srv tg port => simp [addrTexts, ih, assembleStep]
    | a ad => simp [addrTexts, ih, assembleStep]
    | aaaa ad => simp [addrTexts, ih, assembleStep]
    | txt => simp [addrTexts, ih, assembleStep]
    | other => simp [addrTexts, ih, assembleStep]

theorem foldl_name (rs : List RR) (acc : SvcAcc) :
    (rs.foldl assembleStep acc).name
      = match lastPtr? rs with
        | some (s, t) => trimSuffix t ("." ++ s)
        | none => acc.name := by
  induction rs generalizing acc with
  | nil => simp [lastPtr?]
  | cons r rest ih =>
    cases r with
    | ptr s t =>
      rw [List.foldl_cons, ih]
      rcases hl : lastPtr? rest with _ | ⟨q⟩
      · simp [lastPtr?, hl, assembleStep_ptr_name]
      · simp [lastPtr?, hl]
    | srv tg port => rw [List.foldl_cons, ih]; simp [lastPtr?, assembleStep]
    | a ad => rw [List.foldl_cons, ih]; simp [lastPtr?, assembleStep]
    | aaaa ad => rw [List.foldl_cons, ih]; simp [lastPtr?, assembleStep]
    | txt => rw [List.foldl_cons, ih]; simp [lastPtr?, assembleStep]
    | other => rw [List.foldl_cons, ih]; simp [lastPtr?, assembleStep]

theorem foldl_host (rs : List RR) (acc : SvcAcc) :
    (rs.foldl assembleStep acc).host
      = match lastSrv? rs with
        | some (tg, port) => trimSuffix tg "." ++ ":" ++ natToString port
        | none => acc.host := by
  induction rs generalizing acc with
  | nil => simp [lastSrv?]
  | cons r rest ih =>
    cases r with
    | ptr s t =>
      rw [List.foldl_cons, ih]
      simp [lastSrv?, assembleStep_ptr_host]
    | srv tg port =>
      rw [List.foldl_cons, ih]
      rcases hl : lastSrv? rest with _ | ⟨q⟩
      · simp [lastSrv?, hl, assembleStep]
      · simp [lastSrv?, hl]
    | a ad => rw [List.foldl_cons, ih]; simp [lastSrv?, assembleStep]
    | aaaa ad => rw [List.foldl_cons, ih]; simp [lastSrv?, assembleStep]
    | txt => rw [List.foldl_cons, ih]; simp [lastSrv?, assembleStep]
    | other => rw [List.foldl_cons, ih]; simp [lastSrv?, assembleStep]

theorem foldl_labels (rs : List RR) (acc : SvcAcc) :
    ((rs.foldl assembleStep acc).service, (rs.foldl assembleStep acc).proto)
      = match lastConfPtr? rs with
        | some (x, y) => (trimChar '_' x, trimChar '_' y)
        | none => (acc.service, acc.proto) := by
  induction rs generalizing acc with
  | nil => simp [lastConfPtr?]
  | cons r rest ih =>
    cases r with
    | ptr s t =>
      rw [List.foldl_cons, ih]
      rcases hl : lastConfPtr? rest with _ | ⟨⟨x, y⟩⟩
      · have hstep := assembleStep_ptr_labels acc s t
        simp only [lastConfPtr?, hl]
        rcases hsp : splitOnDot (trimChar '.' s) with _ | ⟨a, _ | ⟨b, _ | ⟨c, _ | ⟨d, l⟩⟩⟩⟩ <;>
            rw [hsp] at hstep <;> simp only at hstep <;> try exact hstep
        by_cases hc : c = "local"
        · subst hc
          rw [if_pos rfl] at hstep
          simpa using hstep
        · rw [if_neg hc] at hstep
          simpa [hc] using hstep
      · simp [lastConfPtr?, hl]
    | srv tg port => rw [List.foldl_cons, ih]; simp [lastConfPtr?, assembleStep]
    | a ad => rw [List.foldl_cons, ih]; simp [lastConfPtr?, assembleStep]
    | aaaa ad => rw [List.foldl_cons, ih]; simp [lastConfPtr?, assembleStep]
    | txt => rw [List.foldl_cons, ih]; simp [lastConfPtr?, assembleStep]
    | other => rw [List.foldl_cons, ih]; simp [lastConfPtr?, assembleStep]

/-- C4 counterexample: for the pointer subject `"_http_..local."` the code
sets the service label to `"http"`, although the claim requires the labels
to stay unset (the middle dot-separated component is empty) and, were they
set, the value with only leading underscores stripped would be `"http_"`,
not `"http"` (the code strips underscores from both ends). -/
theorem c4_counterexample :
    (assemble [.ptr "_http_..local." "t"]).service = "http"
    ∧ "http" ≠ ""
    ∧ "http" ≠ "http_" := by
  refine ⟨?_, by decide, by decide⟩
  decide

/-- C4 (amended): the service and protocol labels are set if and only if
the record's subject name, stripped of leading and trailing dots, splits on
dots into exactly three components (empty components allowed) the last of
which is literally `local`; in that case the first two components, each
with leading and trailing underscores stripped, become the service and
protocol labels, and any other shape leaves both label fields unchanged. -/
theorem c4_subject_label_parsing (acc : SvcAcc) (subject target : String) :
    (∀ x y, splitOnDot (trimChar '.' subject) = [x, y, "local"] →
      (assembleStep acc (.ptr subject target)).service = trimChar '_' x ∧
      (assembleStep acc (.ptr subject target)).proto = trimChar '_' y) ∧
    ((¬ ∃ x y, splitOnDot (trimChar '.' subject) = [x, y, "local"]) →
      (assembleStep acc (.ptr subject target)).service = acc.service ∧
      (assembleStep acc (.ptr subject target)).proto = acc.proto) := by
  have hstep := assembleStep_ptr_labels acc subject target
  constructor
  · intro x y hxy
    rw [hxy] at hstep
    simp only at hstep
    rw [if_pos trivial] at hstep
    exact ⟨congrArg Prod.fst hstep, congrArg Prod.snd hstep⟩
  · intro hne
    rcases hsp : splitOnDot (trimChar '.' subject) with _ | ⟨a, _ | ⟨b, _ | ⟨c, _ | ⟨d, l⟩⟩⟩⟩ <;>
        rw [hsp] at hstep <;> simp only at hstep
    · exact ⟨congrArg Prod.fst hstep, congrArg Prod.snd hstep⟩
    · exact ⟨congrArg Prod.fst hstep, congrArg Prod.snd hstep⟩
    · exact ⟨congrArg Prod.fst hstep, congrArg Prod.snd hstep⟩
    · by_cases hc : c = "local"
      · subst hc
        exact absurd ⟨a, b, hsp⟩ hne
      · rw [if_neg hc] at hstep
        exact ⟨congrArg Prod.fst hstep, congrArg Prod.snd hstep⟩
    · exact ⟨congrArg Prod.fst hstep, congrArg Prod.snd hstep⟩

/-- C4 witness: on the subject `"_http._tcp.local."` the labels are set to
`"http"` and `"tcp"`, via the positive direction of the amended theorem. -/
theorem c4_subject_label_parsing_witness :
    (assembleStep initAcc (.ptr "_http._tcp.local." "t")).service = "http"
    ∧ (assembleStep initAcc (.ptr "_http._tcp.local." "t")).proto = "tcp" := by
  have h := (c4_subject_label_parsing initAcc "_http._tcp.local." "t").1
      "_http" "_tcp" (by decide)
  refine ⟨?_, ?_⟩
  · rw [h.1]; decide
  · rw [h.2]; decide

/-- C5 counterexample: on the example response the program emits
`tcp\thttp\tprinter.local:631\tMy Printer`, not the claimed
`http\t\tprinter.local:631\tMy Printer`: the subject `_http._tcp.local.`
does split into exactly three components ending in `local`, so the labels
are set, with `service = "http"` and `proto = "tcp"`. -/
theorem c5_counterexample :
    outputLines (queryLoop 0 (fun _ => none) []
        [.goodMsg ⟨7, [.ptr "_http._tcp.local." "My Printer._http._tcp.local.",
                       .srv "printer.local." 631, .a "192.168.1.5"], []⟩]).outs
      ≠ ["http\t\tprinter.local:631\tMy Printer\n"]
    ∧ outputLines (queryLoop 0 (fun _ => none) []
        [.goodMsg ⟨7, [.ptr "_http._tcp.local." "My Printer._http._tcp.local.",
                       .srv "printer.local." 631, .a "192.168.1.5"], []⟩]).outs
      ≠ ["http\t\tprinter.local:631\tMy Printer"] := by
  decide

/-- C5 (amended): for the example non-enumeration response (pointer with
subject `_http._tcp.local.` and target `My Printer._http._tcp.local.`,
service-location with target `printer.local.` and port 631, IPv4 address
`192.168.1.5`) the emitted output line is
`tcp\thttp\tprinter.local:631\tMy Printer` followed by a newline. -/
theorem c5_example_line :
    outputLines (queryLoop 0 (fun _ => none) []
        [.goodMsg ⟨7, [.ptr "_http._tcp.local." "My Printer._http._tcp.local.",
                       .srv "printer.local." 631, .a "192.168.1.5"], []⟩]).outs
      = ["tcp\thttp\tprinter.local:631\tMy Printer\n"] := by
  decide

/-- C6: the instance name is the pointer's target with a dot followed by
the record's own subject name stripped as a suffix, so for a target of the
form `leaf ++ "." ++ subject` the instance name is exactly the leaf label,
whatever the subject and whatever the accumulator held before. -/
theorem c6_instance_name_strips_subject (acc : SvcAcc) (subject leaf : String) :
    (assembleStep acc (.ptr subject (leaf ++ "." ++ subject))).name = leaf := by
  rw [assembleStep_ptr_name, string_append_assoc, trimSuffix_append]

/-- C9 counterexample: in a message whose second (last) pointer record has
the non-conforming subject `x.y.z.w`, the instance name comes from that
last pointer (`"i2"`) but the labels keep the values `"a"`/`"b"` from the
first pointer, while the claim says the labels also reflect the last
pointer record (which would leave them empty). -/
theorem c9_counterexample :
    (assemble [.ptr "_a._b.local." "i1._a._b.local.",
               .ptr "x.y.z.w" "i2.x.y.z.w"]).name = "i2"
    ∧ (assemble [.ptr "_a._b.local." "i1._a._b.local.",
                 .ptr "x.y.z.w" "i2.x.y.z.w"]).service = "a"
    ∧ (assemble [.ptr "_a._b.local." "i1._a._b.local.",
                 .ptr "x.y.z.w" "i2.x.y.z.w"]).proto = "b"
    ∧ "a" ≠ "" ∧ "b" ≠ "" := by
  refine ⟨?_, ?_, ?_, by decide, by decide⟩ <;> decide

/-- C9 (amended): within one response the instance name reflects the last
pointer record and `hostPort` the last service-location record, later
records overwriting earlier ones; the service/protocol labels reflect the
last pointer record whose subject passes the three-component `local`
check (a later non-conforming pointer leaves them unchanged); and every
IPv4/IPv6 address record appends to the addresses sequence in order. -/
theorem c9_overwrite_semantics (records : List RR) :
    ((assemble records).name
        = match lastPtr? records with
          | some (s, t) => trimSuffix t ("." ++ s)
          | none => "")
    ∧ ((assemble records).host
        = match lastSrv? records with
          | some (tg, port) => trimSuffix tg "." ++ ":" ++ natToString port
          | none => "")
    ∧ (((assemble records).service, (assemble records).proto)
        = match lastConfPtr? records with
          | some (x, y) => (trimChar '_' x, trimChar '_' y)
          | none => ("", ""))
    ∧ (assemble records).addrs = addrTexts records := by
  refine ⟨?_, ?_, ?_, ?_⟩
  · rw [assemble, foldl_name]
    rfl
  · rw [assemble, foldl_host]
    rfl
  · rw [assemble, foldl_labels]
    rfl
  · rw [assemble, foldl_addrs]
    rfl

/-! Behaviour of the enumeration branch and the read loop. -/

theorem handleEnum_err_none (sendErr : String → Option String)
    (h : ∀ u, sendErr u = none) (rs : List RR) (services : List String) :
    (handleEnum sendErr services rs).err = none := by
  induction rs generalizing services with
  | nil => rfl
  | cons r rest ih =>
    cases r with
    | ptr s t =>
      by_cases hmem : t ∈ services
      · simp [handleEnum, hmem, ih]
      · simp [handleEnum, hmem, h t, ih]
    | srv tg port => simp [handleEnum, ih]
    | a ad => simp [handleEnum, ih]
    | aaaa ad => simp [handleEnum, ih]
    | txt => simp [handleEnum, ih]
    | other => simp [handleEnum, ih]

theorem handleEnum_mem (sendErr : String → Option String)
    (h : ∀ u, sendErr u = none) (rs : List RR) (services : List String) (t : String) :
    t ∈ (handleEnum sendErr services rs).services
      ↔ t ∈ services ∨ t ∈ ptrTargets rs := by
  induction rs generalizing services with
  | nil => simp [handleEnum, ptrTargets]
  | cons r rest ih =>
    cases r with
    | ptr s u =>
      by_cases hmem : u ∈ services
      · rw [show handleEnum sendErr services (.ptr s u :: rest)
              = handleEnum sendErr services rest by simp [handleEnum, hmem]]
        rw [ih]
        simp only [ptrTargets, List.mem_cons]
        constructor
        · rintro (hs | hr)
          · exact Or.inl hs
          · exact Or.inr (Or.inr hr)
        · rintro (hs | rfl | hr)
          · exact Or.inl hs
          · exact Or.inl hmem
          · exact Or.inr hr
      · rw [show handleEnum sendErr services (.ptr s u :: rest)
              = ⟨(handleEnum sendErr (services ++ [u]) rest).services,
                 .query u :: (handleEnum sendErr (services ++ [u]) rest).outs,
                 (handleEnum sendErr (services ++ [u]) rest).err⟩
            by simp [handleEnum, hmem, h u]]
        rw [ih]
        simp only [ptrTargets, List.mem_cons, List.mem_append,
          List.mem_singleton]
        tauto
    | srv tg port => simp only [handleEnum, ptrTargets]; exact ih services
    | a ad => simp only [handleEnum, ptrTargets]; exact ih services
    | aaaa ad => simp only [handleEnum, ptrTargets]; exact ih services
    | txt => simp only [handleEnum, ptrTargets]; exact ih services
    | other => simp only [handleEnum, ptrTargets]; exact ih services

theorem handleEnum_count (sendErr : String → Option String)
    (h : ∀ u, sendErr u = none) (rs : List RR) (services : List String) (t : String) :
    countQueries t (handleEnum sendErr services rs).outs
      = if t ∈ ptrTargets rs ∧ t ∉ services then 1 else 0 := by
  induction rs generalizing services with
  | nil => simp [handleEnum, countQueries, ptrTargets]
  | cons r rest ih =>
    cases r with
    | ptr s u =>
      by_cases hmem : u ∈ services
      · rw [show handleEnum sendErr services (.ptr s u :: rest)
              = handleEnum sendErr services rest by simp [handleEnum, hmem]]
        rw [ih]
        by_cases ht : t = u
        · subst ht
          simp [ptrTargets, hmem]
        · simp [ptrTargets, ht]
      · rw [show handleEnum sendErr services (.ptr s u :: rest)
              = ⟨(handleEnum sendErr (services ++ [u]) rest).services,
                 .query u :: (handleEnum sendErr (services ++ [u]) rest).outs,
                 (handleEnum sendErr (services ++ [u]) rest).err⟩
            by simp [handleEnum, hmem, h u]]
        simp only [countQueries]
        rw [ih]
        by_cases ht : t = u
        · subst ht
          simp [ptrTargets, hmem]
        · have : ¬u = t := fun hc => ht hc.symm
          simp only [this, if_false, ptrTargets, List.mem_cons, List.mem_append,
            List.mem_singleton, ht, false_or, Nat.zero_add]
          by_cases h1 : t ∈ ptrTargets rest <;> by_cases h2 : t ∈ services <;>
            simp [h1, h2, ht]
    | srv tg port => simp only [handleEnum, ptrTargets]; exact ih services
    | a ad => simp only [handleEnum, ptrTargets]; exact ih services
    | aaaa ad => simp only [handleEnum, ptrTargets]; exact ih services
    | txt => simp only [handleEnum, ptrTargets]; exact ih services
    | other => simp only [handleEnum, ptrTargets]; exact ih services

theorem outputLines_handleEnum (sendErr : String → Option String)
    (rs : List RR) (services : List String) :
    outputLines (handleEnum sendErr services rs).outs = [] := by
  induction rs generalizing services with
  | nil => rfl
  | cons r rest ih =>
    cases r with
    | ptr s u =>
      by_cases hmem : u ∈ services
      · simp [handleEnum, hmem, ih]
      · rcases hu : sendErr u with _ | e
        · simp [handleEnum, hmem, hu, outputLines, ih]
        · simp [handleEnum, hmem, hu, outputLines]
    | srv tg port => simp [handleEnum, ih]
    | a ad => simp [handleEnum, ih]
    | aaaa ad => simp [handleEnum, ih]
    | txt => simp [handleEnum, ih]
    | other => simp [handleEnum, ih]

theorem countQueries_append (t : String) (xs ys : List Out) :
    countQueries t (xs ++ ys) = countQueries t xs + countQueries t ys := by
  induction xs with
  | nil => simp [countQueries]
  | cons x rest ih =>
    cases x <;> simp [countQueries, ih]
    omega

theorem outputLines_append (xs ys : List Out) :
    outputLines (xs ++ ys) = outputLines xs ++ outputLines ys := by
  induction xs with
  | nil => rfl
  | cons x rest ih =>
    cases x <;> simp [outputLines, ih]

theorem queryLoop_count (p : Nat) (sendErr : String → Option String)
    (h : ∀ u, sendErr u = none) (evs : List Event) (services : List String) (t : String) :
    countQueries t (queryLoop p sendErr services evs).outs
      = if t ∈ enumTargets p evs ∧ t ∉ services then 1 else 0 := by
  induction evs generalizing services with
  | nil => simp [queryLoop, countQueries, enumTargets]
  | cons e rest ih =>
    cases e with
    | closed => simp [queryLoop, countQueries, enumTargets]
    | readErr er => simp [queryLoop, countQueries, enumTargets]
    | badMsg s => simp [queryLoop, countQueries, enumTargets, ih]
    | goodMsg m =>
      by_cases hm : m.id = p
      · have herr := handleEnum_err_none sendErr h m.answer services
        rw [show queryLoop p sendErr services (.goodMsg m :: rest)
              = ⟨(handleEnum sendErr services m.answer).outs
                   ++ (queryLoop p sendErr (handleEnum sendErr services m.answer).services rest).outs,
                 (queryLoop p sendErr (handleEnum sendErr services m.answer).services rest).services,
                 (queryLoop p sendErr (handleEnum sendErr services m.answer).services rest).result⟩
            by simp [queryLoop, hm, herr]]
        simp only [countQueries_append]
        rw [ih, handleEnum_count sendErr h m.answer services t]
        simp only [enumTargets, hm, if_true, List.mem_append]
        by_cases h1 : t ∈ ptrTargets m.answer <;> by_cases h2 : t ∈ services <;>
          by_cases h3 : t ∈ enumTargets p rest <;>
          simp [h1, h2, h3, handleEnum_mem sendErr h m.answer services t]
      · rw [show queryLoop p sendErr services (.goodMsg m :: rest)
              = ⟨.line (assembleLine m) :: (queryLoop p sendErr services rest).outs,
                 (queryLoop p sendErr services rest).services,
                 (queryLoop p sendErr services rest).result⟩
            by simp [queryLoop, hm]]
        simp only [countQueries]
        rw [ih]
        simp [enumTargets, hm]

theorem queryLoop_lines (p : Nat) (sendErr : String → Option String)
    (h : ∀ u, sendErr u = none) (evs : List Event) (services : List String) :
    outputLines (queryLoop p sendErr services evs).outs
      = (nonEnumMsgs p evs).map assembleLine := by
  induction evs generalizing services with
  | nil => simp [queryLoop, outputLines, nonEnumMsgs]
  | cons e rest ih =>
    cases e with
    | closed => simp [queryLoop, outputLines, nonEnumMsgs]
    | readErr er => simp [queryLoop, outputLines, nonEnumMsgs]
    | badMsg s => simp [queryLoop, outputLines, nonEnumMsgs, ih]
    | goodMsg m =>
      by_cases hm : m.id = p
      · have herr := handleEnum_err_none sendErr h m.answer services
        rw [show queryLoop p sendErr services (.goodMsg m :: rest)
              = ⟨(handleEnum sendErr services m.answer).outs
                   ++ (queryLoop p sendErr (handleEnum sendErr services m.answer).services rest).outs,
                 (queryLoop p sendErr (handleEnum sendErr services m.answer).services rest).services,
                 (queryLoop p sendErr (handleEnum sendErr services m.answer).services rest).result⟩
            by simp [queryLoop, hm, herr]]
        simp only [outputLines_append, outputLines_handleEnum, List.nil_append]
        rw [ih]
        simp [nonEnumMsgs, hm]
      · rw [show queryLoop p sendErr services (.goodMsg m :: rest)
              = ⟨.line (assembleLine m) :: (queryLoop p sendErr services rest).outs,
                 (queryLoop p sendErr services rest).services,
                 (queryLoop p sendErr services rest).result⟩
            by simp [queryLoop, hm]]
        simp only [outputLines]
        rw [ih]
        simp [nonEnumMsgs, hm]

theorem nonEnumMsgs_insert_enum (p : Nat) (m : Msg) (hm : m.id = p) :
    ∀ evs₁ evs₂ : List Event,
      nonEnumMsgs p (evs₁ ++ .goodMsg m :: evs₂) = nonEnumMsgs p (evs₁ ++ evs₂)
  | [], evs₂ => by simp [nonEnumMsgs, hm]
  | .closed :: rest, evs₂ => rfl
  | .readErr e :: rest, evs₂ => rfl
  | .badMsg s :: rest, evs₂ => by
      simp only [List.cons_append, nonEnumMsgs]
      exact nonEnumMsgs_insert_enum p m hm rest evs₂
  | .goodMsg m' :: rest, evs₂ => by
      by_cases h : m'.id = p <;>
        simp [nonEnumMsgs, h, nonEnumMsgs_insert_enum p m hm rest evs₂]

theorem queryLoop_append (p : Nat) (sendErr : String → Option String)
    (evs₁ evs₂ : List Event) : ∀ services : List String,
    (queryLoop p sendErr services evs₁).result = .running →
    queryLoop p sendErr services (evs₁ ++ evs₂)
      = ⟨(queryLoop p sendErr services evs₁).outs
           ++ (queryLoop p sendErr (queryLoop p sendErr services evs₁).services evs₂).outs,
         (queryLoop p sendErr (queryLoop p sendErr services evs₁).services evs₂).services,
         (queryLoop p sendErr (queryLoop p sendErr services evs₁).services evs₂).result⟩ := by
  induction evs₁ with
  | nil => intro services _; simp [queryLoop]
  | cons e rest ih =>
    intro services h
    cases e with
    | closed => simp [queryLoop] at h
    | readErr er => simp [queryLoop] at h
    | badMsg s =>
      simp only [queryLoop] at h
      simp only [List.cons_append, queryLoop, List.append_eq]
      rw [ih services h]
    | goodMsg m =>
      by_cases hm : m.id = p
      · rcases herr : (handleEnum sendErr services m.answer).err with _ | e
        · have hred : queryLoop p sendErr services (.goodMsg m :: rest)
              = ⟨(handleEnum sendErr services m.answer).outs
                   ++ (queryLoop p sendErr (handleEnum sendErr services m.answer).services rest).outs,
                 (queryLoop p sendErr (handleEnum sendErr services m.answer).services rest).services,
                 (queryLoop p sendErr (handleEnum sendErr services m.answer).services rest).result⟩ := by
            simp [queryLoop, hm, herr]
          rw [hred] at h
          simp only at h
          simp only [List.cons_append]
          have hred2 : queryLoop p sendErr services (.goodMsg m :: (rest ++ evs₂))
              = ⟨(handleEnum sendErr services m.answer).outs
                   ++ (queryLoop p sendErr (handleEnum sendErr services m.answer).services (rest ++ evs₂)).outs,
                 (queryLoop p sendErr (handleEnum sendErr services m.answer).services (rest ++ evs₂)).services,
                 (queryLoop p sendErr (handleEnum sendErr services m.answer).services (rest ++ evs₂)).result⟩ := by
            simp [queryLoop, hm, herr]
          rw [hred2, ih _ h, hred]
          simp [List.append_assoc]
        · have : queryLoop p sendErr services (.goodMsg m :: rest)
              = ⟨(handleEnum sendErr services m.answer).outs,
                 (handleEnum sendErr services m.answer).services, .fail e⟩ := by
            simp [queryLoop, hm, herr]
          rw [this] at h
          simp at h
      · have hred : queryLoop p sendErr services (.goodMsg m :: rest)
            = ⟨.line (assembleLine m) :: (queryLoop p sendErr services rest).outs,
               (queryLoop p sendErr services rest).services,
               (queryLoop p sendErr services rest).result⟩ := by
          simp [queryLoop, hm]
        rw [hred] at h
        simp only at h
        simp only [List.cons_append]
        have hred2 : queryLoop p sendErr services (.goodMsg m :: (rest ++ evs₂))
            = ⟨.line (assembleLine m) :: (queryLoop p sendErr services (rest ++ evs₂)).outs,
               (queryLoop p sendErr services (rest ++ evs₂)).services,
               (queryLoop p sendErr services (rest ++ evs₂)).result⟩ := by
          simp [queryLoop, hm]
        rw [hred2, ih _ h, hred]
        simp

theorem handleEnum_err_elem (sendErr : String → Option String) :
    ∀ (rs : List RR) (services : List String) (e : String),
    (handleEnum sendErr services rs).err = some e →
    ∃ t, sendErr t = some e ∧ t ∉ services
      ∧ t ∈ (handleEnum sendErr services rs).services := by
  intro rs
  induction rs with
  | nil => intro services e he; simp [handleEnum] at he
  | cons r rest ih =>
    intro services e he
    cases r with
    | ptr s u =>
      by_cases hmem : u ∈ services
      · rw [show handleEnum sendErr services (.ptr s u :: rest)
              = handleEnum sendErr services rest by simp [handleEnum, hmem]] at he ⊢
        exact ih services e he
      · rcases hu : sendErr u with _ | e'
        · rw [show handleEnum sendErr services (.ptr s u :: rest)
                = ⟨(handleEnum sendErr (services ++ [u]) rest).services,
                   .query u :: (handleEnum sendErr (services ++ [u]) rest).outs,
                   (handleEnum sendErr (services ++ [u]) rest).err⟩
              by simp [handleEnum, hmem, hu]] at he ⊢
          rcases ih (services ++ [u]) e he with ⟨t, ht1, ht2, ht3⟩
          exact ⟨t, ht1, fun hc => ht2 (by simp [hc]), ht3⟩
        · rw [show handleEnum sendErr services (.ptr s u :: rest)
                = ⟨services ++ [u], [], some e'⟩
              by simp [handleEnum, hmem, hu]] at he ⊢
          simp only [Option.some.injEq] at he
          refine ⟨u, ?_, hmem, by simp⟩
          rw [hu, he]
    | srv tg port =>
      rw [show handleEnum sendErr services (.srv tg port :: rest)
            = handleEnum sendErr services rest by simp [handleEnum]] at he ⊢
      exact ih services e he
    | a ad =>
      rw [show handleEnum sendErr services (.a ad :: rest)
            = handleEnum sendErr services rest by simp [handleEnum]] at he ⊢
      exact ih services e he
    | aaaa ad =>
      rw [show handleEnum sendErr services (.aaaa ad :: rest)
            = handleEnum sendErr services rest by simp [handleEnum]] at he ⊢
      exact ih services e he
    | txt =>
      rw [show handleEnum sendErr services (.txt :: rest)
            = handleEnum sendErr services rest by simp [handleEnum]] at he ⊢
      exact ih services e he
    | other =>
      rw [show handleEnum sendErr services (.other :: rest)
            = handleEnum sendErr services rest by simp [handleEnum]] at he ⊢
      exact ih services e he

/-- C1: over a whole run starting with an empty deduplicator and whose
follow-up sends all succeed, the number of follow-up queries sent for a
service-type name `t` is one if `t` occurs as the target of a pointer
answer in some enumeration response the loop processes, and zero
otherwise — no matter how often `t` repeats across the responses. -/
theorem c1_one_query_per_type (p : Nat) (sendErr : String → Option String)
    (h : ∀ u, sendErr u = none) (evs : List Event) (t : String) :
    countQueries t (queryLoop p sendErr [] evs).outs
      = if t ∈ enumTargets p evs then 1 else 0 := by
  have hq := queryLoop_count p sendErr h evs [] t
  simpa using hq

/-- C1 witness: two enumeration responses repeating the same pointer
target lead to exactly one follow-up query for that target. -/
theorem c1_one_query_per_type_witness :
    countQueries "_http._tcp.local."
        (queryLoop 1 (fun _ => none) []
          [.goodMsg ⟨1, [.ptr "_services._dns-sd._udp.local." "_http._tcp.local."], []⟩,
           .goodMsg ⟨1, [.ptr "_services._dns-sd._udp.local." "_http._tcp.local."], []⟩,
           .closed]).outs
      = if "_http._tcp.local." ∈ enumTargets 1
            [.goodMsg ⟨1, [.ptr "_services._dns-sd._udp.local." "_http._tcp.local."], []⟩,
             .goodMsg ⟨1, [.ptr "_services._dns-sd._udp.local." "_http._tcp.local."], []⟩,
             .closed]
        then 1 else 0 :=
  c1_one_query_per_type 1 (fun _ => none) (fun _ => rfl) _ _

/-- C2: a successfully decoded message whose transaction id equals the
enumeration key produces no output line wherever it arrives in the run:
the printed lines of a run containing it equal the printed lines of the
same run without it, even when the message also carries service-location
or address records — it is handled only by the enumeration path. -/
theorem c2_enum_response_no_line (p : Nat) (sendErr : String → Option String)
    (services : List String) (evs₁ evs₂ : List Event) (m : Msg)
    (hs : ∀ u, sendErr u = none) (hm : m.id = p) :
    outputLines (queryLoop p sendErr services (evs₁ ++ .goodMsg m :: evs₂)).outs
      = outputLines (queryLoop p sendErr services (evs₁ ++ evs₂)).outs := by
  rw [queryLoop_lines p sendErr hs _ services, queryLoop_lines p sendErr hs _ services,
      nonEnumMsgs_insert_enum p m hm evs₁ evs₂]

/-- C2 witness: an enumeration response that also carries
service-location and address records adds no output line to a run. -/
theorem c2_enum_response_no_line_witness :
    outputLines (queryLoop 5 (fun _ => none) []
        ([.badMsg "n"]
          ++ .goodMsg ⟨5, [.ptr "_services._dns-sd._udp.local." "_ipp._tcp.local.",
                           .srv "printer.local." 631, .a "192.168.1.5"], []⟩
          :: [.goodMsg ⟨8, [.srv "h.local." 80], []⟩, .closed])).outs
      = outputLines (queryLoop 5 (fun _ => none) []
          ([.badMsg "n"] ++ [.goodMsg ⟨8, [.srv "h.local." 80], []⟩, .closed])).outs :=
  c2_enum_response_no_line 5 (fun _ => none) [] [.badMsg "n"]
    [.goodMsg ⟨8, [.srv "h.local." 80], []⟩, .closed]
    ⟨5, [.ptr "_services._dns-sd._udp.local." "_ipp._tcp.local.",
         .srv "printer.local." 631, .a "192.168.1.5"], []⟩
    (fun _ => rfl) rfl

/-- C3: every non-enumeration response the loop processes yields exactly
one printed line, in receipt order, with the four fields in the order
protocol label, service label, host:port, instance name, separated by
tabs and terminated by a newline; a field never populated by a record of
that message stays the empty string of the initial accumulator. -/
theorem c3_line_format (p : Nat) (sendErr : String → Option String)
    (evs : List Event) (hs : ∀ u, sendErr u = none) :
    outputLines (queryLoop p sendErr [] evs).outs
      = (nonEnumMsgs p evs).map (fun m =>
          (assemble (m.answer ++ m.extra)).proto ++ "\t"
            ++ (assemble (m.answer ++ m.extra)).service ++ "\t"
            ++ (assemble (m.answer ++ m.extra)).host ++ "\t"
            ++ (assemble (m.answer ++ m.extra)).name ++ "\n") := by
  rw [queryLoop_lines p sendErr hs evs []]
  rfl

/-- C3 witness: a run with one non-enumeration response prints exactly
its assembled line. -/
theorem c3_line_format_witness :
    outputLines (queryLoop 0 (fun _ => none) []
        [.goodMsg ⟨9, [.ptr "_ipp._tcp.local." "P._ipp._tcp.local."], [.srv "h.local." 80]⟩,
         .closed]).outs
      = (nonEnumMsgs 0
            [.goodMsg ⟨9, [.ptr "_ipp._tcp.local." "P._ipp._tcp.local."], [.srv "h.local." 80]⟩,
             .closed]).map (fun m =>
          (assemble (m.answer ++ m.extra)).proto ++ "\t"
            ++ (assemble (m.answer ++ m.extra)).service ++ "\t"
            ++ (assemble (m.answer ++ m.extra)).host ++ "\t"
            ++ (assemble (m.answer ++ m.extra)).name ++ "\n") :=
  c3_line_format 0 (fun _ => none) _ (fun _ => rfl)

/-- C7: a datagram that fails to decode contributes exactly one log entry
carrying the sender's address — no output line and no query — and the
loop then continues from the same deduplicator state, processing the
remaining events exactly as if the bad datagram had not arrived; it never
aborts the run. -/
theorem c7_bad_datagram_skipped (p : Nat) (sendErr : String → Option String)
    (services : List String) (evs₁ evs₂ : List Event) (sender : String)
    (h : (queryLoop p sendErr services evs₁).result = .running) :
    queryLoop p sendErr services (evs₁ ++ .badMsg sender :: evs₂)
      = ⟨(queryLoop p sendErr services evs₁).outs
           ++ .logBad sender
                :: (queryLoop p sendErr (queryLoop p sendErr services evs₁).services evs₂).outs,
         (queryLoop p sendErr (queryLoop p sendErr services evs₁).services evs₂).services,
         (queryLoop p sendErr (queryLoop p sendErr services evs₁).services evs₂).result⟩ := by
  rw [queryLoop_append p sendErr evs₁ (.badMsg sender :: evs₂) services h]
  simp [queryLoop]

/-- C7 witness: with one bad datagram between an enumeration response and
the close, the run logs the sender and still processes the rest. -/
theorem c7_bad_datagram_skipped_witness :
    queryLoop 1 (fun _ => none) []
        ([.goodMsg ⟨1, [.ptr "_services._dns-sd._udp.local." "_ipp._tcp.local."], []⟩]
          ++ .badMsg "10.0.0.9" :: [.closed])
      = ⟨(queryLoop 1 (fun _ => none) []
            [.goodMsg ⟨1, [.ptr "_services._dns-sd._udp.local." "_ipp._tcp.local."], []⟩]).outs
           ++ .logBad "10.0.0.9"
                :: (queryLoop 1 (fun _ => none)
                      (queryLoop 1 (fun _ => none) []
                        [.goodMsg ⟨1, [.ptr "_services._dns-sd._udp.local." "_ipp._tcp.local."], []⟩]).services
                      [.closed]).outs,
         (queryLoop 1 (fun _ => none)
            (queryLoop 1 (fun _ => none) []
              [.goodMsg ⟨1, [.ptr "_services._dns-sd._udp.local." "_ipp._tcp.local."], []⟩]).services
            [.closed]).services,
         (queryLoop 1 (fun _ => none)
            (queryLoop 1 (fun _ => none) []
              [.goodMsg ⟨1, [.ptr "_services._dns-sd._udp.local." "_ipp._tcp.local."], []⟩]).services
            [.closed]).result⟩ :=
  c7_bad_datagram_skipped 1 (fun _ => none) []
    [.goodMsg ⟨1, [.ptr "_services._dns-sd._udp.local." "_ipp._tcp.local."], []⟩]
    [.closed] "10.0.0.9" (by decide)

/-- C8: after any prefix that leaves the loop still reading, a receive
that fails with the closed error ends the run with success status and no
further output; a receive failing with any other error aborts the run
with exactly that error; and a failing follow-up send likewise aborts the
run with the send's error. -/
theorem c8_close_vs_error (p : Nat) (sendErr : String → Option String)
    (services : List String) (evs₁ evs₂ evs₃ evs₄ : List Event) (e : String)
    (h : (queryLoop p sendErr services evs₁).result = .running) :
    (queryLoop p sendErr services (evs₁ ++ .closed :: evs₂)).result = .ok
    ∧ (queryLoop p sendErr services (evs₁ ++ .closed :: evs₂)).outs
        = (queryLoop p sendErr services evs₁).outs
    ∧ (queryLoop p sendErr services (evs₁ ++ .readErr e :: evs₃)).result = .fail e
    ∧ ∀ (m : Msg) (e' : String), m.id = p →
        (handleEnum sendErr (queryLoop p sendErr services evs₁).services m.answer).err
          = some e' →
        (queryLoop p sendErr services (evs₁ ++ .goodMsg m :: evs₄)).result = .fail e' := by
  refine ⟨?_, ?_, ?_, ?_⟩
  · rw [queryLoop_append p sendErr evs₁ (.closed :: evs₂) services h]
    simp [queryLoop]
  · rw [queryLoop_append p sendErr evs₁ (.closed :: evs₂) services h]
    simp [queryLoop]
  · rw [queryLoop_append p sendErr evs₁ (.readErr e :: evs₃) services h]
    simp [queryLoop]
  · intro m e' hm herr
    rw [queryLoop_append p sendErr evs₁ (.goodMsg m :: evs₄) services h]
    simp [queryLoop, hm, herr]

/-- C8 witness: after one processed response, closing yields success, a
plain read error aborts with that error, and a failing follow-up send
aborts with the send's error. -/
theorem c8_close_vs_error_witness :
    (queryLoop 2 (failOn "_fail._tcp.local." "boom") []
        ([.goodMsg ⟨4, [.srv "h.local." 80], []⟩] ++ .closed :: [.badMsg "x"])).result = .ok
    ∧ (queryLoop 2 (failOn "_fail._tcp.local." "boom") []
        ([.goodMsg ⟨4, [.srv "h.local." 80], []⟩] ++ .readErr "conn reset" :: [])).result
        = .fail "conn reset"
    ∧ (queryLoop 2 (failOn "_fail._tcp.local." "boom") []
        ([.goodMsg ⟨4, [.srv "h.local." 80], []⟩]
          ++ .goodMsg ⟨2, [.ptr "_services._dns-sd._udp.local." "_fail._tcp.local."], []⟩
          :: [])).result = .fail "boom" :=
  have h8 := c8_close_vs_error 2 (failOn "_fail._tcp.local." "boom") []
    [.goodMsg ⟨4, [.srv "h.local." 80], []⟩] [.badMsg "x"] [] [] "conn reset" (by decide)
  ⟨h8.1, h8.2.2.1,
   h8.2.2.2 ⟨2, [.ptr "_services._dns-sd._udp.local." "_fail._tcp.local."], []⟩ "boom"
     rfl (by decide)⟩

/-- C10: when the send of a follow-up query fails, the run aborts with
that error, but the failing service-type name was inserted into the
deduplicator before the send: it was absent before the message and is
present in the deduplicator state of the aborted run, so the discovery
step is not atomic. -/
theorem c10_insert_before_send (p : Nat) (sendErr : String → Option String)
    (services : List String) (m : Msg) (evs : List Event) (e : String)
    (hm : m.id = p) (he : (handleEnum sendErr services m.answer).err = some e) :
    (queryLoop p sendErr services (.goodMsg m :: evs)).result = .fail e
    ∧ ∃ t, sendErr t = some e ∧ t ∉ services
        ∧ t ∈ (queryLoop p sendErr services (.goodMsg m :: evs)).services := by
  have hred : queryLoop p sendErr services (.goodMsg m :: evs)
      = ⟨(handleEnum sendErr services m.answer).outs,
         (handleEnum sendErr services m.answer).services, .fail e⟩ := by
    simp [queryLoop, hm, he]
  rw [hred]
  exact ⟨rfl, handleEnum_err_elem sendErr m.answer services e he⟩

/-- C10 witness: a send oracle failing on `_fail._tcp.local.` aborts the
run with that error while the name is already in the deduplicator. -/
theorem c10_insert_before_send_witness :
    (queryLoop 3 (failOn "_fail._tcp.local." "boom") []
        [.goodMsg ⟨3, [.ptr "_services._dns-sd._udp.local." "_fail._tcp.local."], []⟩]).result
      = .fail "boom"
    ∧ ∃ t, failOn "_fail._tcp.local." "boom" t = some "boom" ∧ t ∉ ([] : List String)
        ∧ t ∈ (queryLoop 3 (failOn "_fail._tcp.local." "boom") []
            [.goodMsg ⟨3, [.ptr "_services._dns-sd._udp.local." "_fail._tcp.local."], []⟩]).services :=
  c10_insert_before_send 3 (failOn "_fail._tcp.local." "boom") []
    ⟨3, [.ptr "_services._dns-sd._udp.local." "_fail._tcp.local."], []⟩ [] "boom"
    rfl (by decide)

end Mdns
